import Mathlib

/-!
Shallow embedding of the node-manager program (main.py): the prober
(Worker.checkIP), the scanner (Worker.scanLAN / Worker.scanNodes), and the
registry operations of MainWindow (addNodes, removeGroupBox, machineControl,
checkNodeName, clearList).  Network outcomes are abstracted by oracle
functions; Qt signal deliveries are applied synchronously in program order.
-/

set_option maxHeartbeats 1000000
set_option maxRecDepth 100000

namespace NodeManager

/-- A discovered node: dotted-quad IPv4 address plus TCP port, mirroring the
dict produced by Worker.checkIP and stored in MainWindow.nodes. -/
structure Node where
  address : String
  port : Nat
deriving DecidableEq

/-- Process-global interpreter state touched by the prober: the socket
module's process-wide default timeout, mutated by socket.setdefaulttimeout. -/
structure NetState where
  defaultTimeout : Option Nat
deriving DecidableEq

/-- Outcome of one TCP connect attempt (sock.connect): success, or any
OSError (connection refused, timeout, host unreachable, routing failure). -/
inductive ConnOutcome where
  | success
  | osError
deriving DecidableEq

/-- Worker.checkIP: sets the process-wide default socket timeout, opens a
socket and connects; any OSError is caught and collapses to the falsy result
(modelled as none); on success the address/port dict (some node) is returned.
The connect outcome is supplied by the oracle conn. -/
def checkIP (conn : String → Nat → ConnOutcome) (st : NetState)
    (address : String) (port : Nat) (timeout : Nat) : NetState × Option Node :=
  let st2 : NetState := { st with defaultTimeout := some timeout }
  match conn address port with
  | ConnOutcome.success => (st2, some ⟨address, port⟩)
  | ConnOutcome.osError => (st2, none)

/-- Address string probed for host suffix i, the f-string interpolation
of the network base and the suffix. -/
def hostAddr (base : String) (i : Nat) : String := base ++ "." ++ toString i

/-- Worker.scanLAN: submits checkIP for host suffixes 1..254 (range(1, 255))
and collects the truthy results as they complete; ord is the as-completed
collection order, a permutation of the submission order List.range' 1 254. -/
def scanLAN (conn : String → Nat → ConnOutcome) (st : NetState) (ord : List Nat)
    (port : Nat) (base : String) (timeout : Nat) : List Node :=
  ord.filterMap (fun i => (checkIP conn st (hostAddr base i) port timeout).2)

/-- Worker.scanPort, the single configured scan port. -/
def scanPort : Nat := 5000

/-- Network base derived in Worker.scanNodes: the first three octets of the
local IP joined with dots. -/
def networkBase (localip : String) : String :=
  String.intercalate "." ((localip.splitOn ".").take 3)

/-- Worker.scanNodes: scans the LAN and emits the node list when non-empty,
otherwise emits None (modelled as the none payload). -/
def scanNodes (conn : String → Nat → ConnOutcome) (st : NetState) (ord : List Nat)
    (localip : String) : Option (List Node) :=
  let nodes := scanLAN conn st ord scanPort (networkBase localip) 1
  if nodes.isEmpty then none else some nodes

/-- One node row of the window: the group box widget with its checkbox state
(selection) and its name-label text; id models Python object identity so two
structurally similar widgets stay distinguishable. -/
structure GroupBox where
  id : Nat
  address : String
  port : Nat
  checked : Bool
  nameText : String
deriving DecidableEq

/-- The em-dash sentinel a fresh name label shows. -/
def defaultNameText : String := "—"

/-- MainWindow registry state: the nodes list, the parallel group-box list,
and a counter supplying fresh widget identities. -/
structure MainWindow where
  nodes : List Node
  groupBoxes : List GroupBox
  nextId : Nat
deriving DecidableEq

/-- The window at start-up: empty registry. -/
def emptyWindow : MainWindow := ⟨[], [], 0⟩

/-- MainWindow.makeGroupBox: a fresh group box with an unchecked checkbox and
the em-dash name label. -/
def makeGroupBox (freshId : Nat) (n : Node) : GroupBox :=
  ⟨freshId, n.address, n.port, false, defaultNameText⟩

/-- Appending one new node: self.nodes.append(node) plus the queued
updateListSignal delivery running MainWindow.addGroupBox. -/
def pushNode (w : MainWindow) (n : Node) : MainWindow :=
  { w with
    nodes := w.nodes ++ [n]
    groupBoxes := w.groupBoxes ++ [makeGroupBox w.nextId n]
    nextId := w.nextId + 1 }

/-- Loop of MainWindow.addNodes over a (non-None) payload: each incoming node
not already in self.nodes is appended and emitted; the second component
collects the emitted (newly added) nodes in emission order. -/
def addNodesGo (w : MainWindow) : List Node → MainWindow × List Node
  | [] => (w, [])
  | n :: rest =>
    if n ∈ w.nodes then addNodesGo w rest
    else
      let r := addNodesGo (pushNode w n) rest
      (r.1, n :: r.2)

/-- MainWindow.addNodes on a list payload. -/
def addNodes (w : MainWindow) (batch : List Node) : MainWindow × List Node :=
  addNodesGo w batch

/-- Python exceptions that the modelled operations can raise. -/
inductive PyErr where
  | valueError
  | typeError
deriving DecidableEq

/-- The addNodes slot as connected to Worker.activeNodes: the payload may be
None (the scan found nothing), and iterating None raises TypeError before any
registry mutation or re-enabling of the window. -/
def addNodesSlot (w : MainWindow) (payload : Option (List Node)) :
    Except PyErr (MainWindow × List Node) :=
  match payload with
  | none => Except.error PyErr.typeError
  | some batch => Except.ok (addNodes w batch)

/-- The nodes-list half of MainWindow.removeGroupBox: remove the first node
whose address matches, then break; an absent address leaves the list as is. -/
def removeFirstNodeWithAddress : List Node → String → List Node
  | [], _ => []
  | n :: rest, a =>
    if n.address = a then rest else n :: removeFirstNodeWithAddress rest a

/-- Effect of MainWindow.removeGroupBox when the group box is still present:
drop it from groupBoxes and drop the first node carrying its address. -/
def removeGroupBoxTotal (w : MainWindow) (g : GroupBox) : MainWindow :=
  { w with
    groupBoxes := w.groupBoxes.erase g
    nodes := removeFirstNodeWithAddress w.nodes g.address }

/-- MainWindow.removeGroupBox: self.groupBoxes.remove(groupBox) raises
ValueError when the group box is no longer in the list; otherwise the group
box is removed and the first node with its address is dropped. -/
def removeGroupBox (w : MainWindow) (g : GroupBox) : Except PyErr MainWindow :=
  if g ∈ w.groupBoxes then Except.ok (removeGroupBoxTotal w g)
  else Except.error PyErr.valueError

/-- Loop of MainWindow.machineControl: a Python list iterator over the live
groupBoxes list is index-based, so removing the current element shifts the
following one into its slot and the iterator skips it.  Every visited checked
group box has a POST recorded in the trace; when the POST completes without
transport error (postOk) the group box is removed in place. -/
def machineControlGo (postOk : String → Nat → Bool) (command : String)
    (w : MainWindow) (i : Nat) (posted : List (String × String)) :
    MainWindow × List (String × String) :=
  if h : i < w.groupBoxes.length then
    if (w.groupBoxes.get ⟨i, h⟩).checked then
      if postOk (w.groupBoxes.get ⟨i, h⟩).address (w.groupBoxes.get ⟨i, h⟩).port then
        machineControlGo postOk command
          (removeGroupBoxTotal w (w.groupBoxes.get ⟨i, h⟩)) (i + 1)
          (posted ++ [((w.groupBoxes.get ⟨i, h⟩).address, command)])
      else
        machineControlGo postOk command w (i + 1)
          (posted ++ [((w.groupBoxes.get ⟨i, h⟩).address, command)])
    else
      machineControlGo postOk command w (i + 1) posted
  else (w, posted)
termination_by w.groupBoxes.length - i
decreasing_by
  · have hm : w.groupBoxes.get ⟨i, h⟩ ∈ w.groupBoxes := w.groupBoxes.get_mem _ _
    have hl : (w.groupBoxes.erase (w.groupBoxes.get ⟨i, h⟩)).length
        = w.groupBoxes.length - 1 := List.length_erase_of_mem hm
    simp only [removeGroupBoxTotal]
    omega
  · omega
  · omega

/-- MainWindow.machineControl: early return on an empty group-box list,
otherwise run the dispatch loop; returns the final window together with the
trace of issued POSTs (address, command body). -/
def machineControl (postOk : String → Nat → Bool) (command : String)
    (w : MainWindow) : MainWindow × List (String × String) :=
  if w.groupBoxes.length = 0 then (w, [])
  else machineControlGo postOk command w 0 []

/-- Result of one name query in MainWindow.checkNodeName: the group box with
its name label set on success, untouched on any RequestException (none). -/
def updateNameOnce (query : String → Nat → Option String) (g : GroupBox) :
    GroupBox :=
  match query g.address g.port with
  | some s => { g with nameText := s }
  | none => g

/-- One cycle of the MainWindow.checkNodeName loop: every group box is
queried in turn; a failing query is skipped (pass) and the loop continues. -/
def checkNameCycle (query : String → Nat → Option String) (w : MainWindow) :
    MainWindow :=
  { w with groupBoxes := w.groupBoxes.map (updateNameOnce query) }

/-- Loop of MainWindow.clearList over a copy of groupBoxes (the slice
self.groupBoxes[:]), removing each group box through removeGroupBox. -/
def clearGo : List GroupBox → MainWindow → Except PyErr MainWindow
  | [], w => Except.ok w
  | g :: rest, w =>
    match removeGroupBox w g with
    | Except.ok w2 => clearGo rest w2
    | Except.error e => Except.error e

/-- MainWindow.clearList: iterate over a snapshot copy of groupBoxes and
remove every entry. -/
def clearList (w : MainWindow) : Except PyErr MainWindow :=
  clearGo w.groupBoxes w

/-- Registry-level operations driving the window over its history: a scan
merge, or the removal of the group box carrying a given address (a no-op at
this level when no such group box exists, as there is no button to click). -/
inductive RegOp where
  | merge (batch : List Node)
  | removeAddr (a : String)

/-- Apply one registry operation to the window. -/
def applyOp (w : MainWindow) : RegOp → MainWindow
  | RegOp.merge batch => (addNodes w batch).1
  | RegOp.removeAddr a =>
    match w.groupBoxes.find? (fun g => g.address == a) with
    | some g => removeGroupBoxTotal w g
    | none => w

/-- Apply a whole history of registry operations. -/
def applyOps (w : MainWindow) (ops : List RegOp) : MainWindow :=
  ops.foldl applyOp w

/-- All merge batches of an operation use port P (true of the program, whose
single scan port is fixed at start-up). -/
def RegOp.portsAre (P : Nat) : RegOp → Bool
  | RegOp.merge batch => batch.all (fun n => n.port == P)
  | RegOp.removeAddr _ => true

/-- Insert an address at the end of an order list unless already present. -/
def insAddr (o : List String) (n : Node) : List String :=
  if n.address ∈ o then o else o ++ [n.address]

/-- Modelled from the spec: one step of the order the claim states, where
survivors are listed by the position their address was FIRST added across the
whole history.  The first component records every address ever added, in
first-addition order; the second records the currently alive addresses. -/
def firstAddedStep : List String × List String → RegOp → List String × List String
  | (hist, alive), RegOp.merge batch =>
    batch.foldl
      (fun p n =>
        if n.address ∈ p.2 then p
        else (if n.address ∈ p.1 then p.1 else p.1 ++ [n.address], p.2 ++ [n.address]))
      (hist, alive)
  | (hist, alive), RegOp.removeAddr a => (hist, alive.erase a)

/-- Modelled from the spec: the snapshot order claimed by the spec — the
surviving addresses in the order they were first added across the history. -/
def specFirstAddedOrder (ops : List RegOp) : List String :=
  ((ops.foldl firstAddedStep ([], [])).1).filter
    (fun a => (ops.foldl firstAddedStep ([], [])).2.contains a)

/-- Modelled from the spec (amended): one step of the most-recent-insertion
order — a node merged again after its removal re-enters at the end. -/
def latestAddedStep (o : List String) : RegOp → List String
  | RegOp.merge batch => batch.foldl insAddr o
  | RegOp.removeAddr a => o.erase a

/-- Modelled from the spec (amended): snapshot order as the order of most
recent insertion. -/
def specLatestOrder (ops : List RegOp) : List String :=
  ops.foldl latestAddedStep []

/-- A connection oracle under which every host is unreachable. -/
def connDead : String → Nat → ConnOutcome := fun _ _ => ConnOutcome.osError

/-- Group box of node A, selected. -/
def gbA : GroupBox := ⟨0, "10.0.0.1", 5000, true, defaultNameText⟩

/-- Group box of node B, selected. -/
def gbB : GroupBox := ⟨1, "10.0.0.2", 5000, true, defaultNameText⟩

/-- A registry of two nodes A and B, both selected. -/
def wAB : MainWindow :=
  ⟨[⟨"10.0.0.1", 5000⟩, ⟨"10.0.0.2", 5000⟩], [gbA, gbB], 2⟩

/-- Claim C1 (code bug): with two selected nodes A then B and every POST
succeeding, dispatch removes A, but the in-place removal shifts B under the
live list iterator, which skips it: the POST trace contains only A, node B is
never POSTed, and B — selected, with its POST bound to succeed — stays in the
registry, contradicting the documented contract that every selected node is
POSTed and removed on transport success. -/
theorem machineControl_skips_after_success :
    machineControl (fun _ _ => true) "reboot" wAB
      = (⟨[⟨"10.0.0.2", 5000⟩], [gbB], 2⟩, [("10.0.0.1", "reboot")]) ∧
    gbB.checked = true ∧
    ("10.0.0.2", "reboot") ∉ [("10.0.0.1", "reboot")] := by
  refine ⟨?_, rfl, by decide⟩
  simp [machineControl, machineControlGo, wAB, gbA, gbB, removeGroupBoxTotal,
    removeFirstNodeWithAddress, List.erase]

/-- Group box of an unselected node. -/
def gbBu : GroupBox := ⟨1, "10.0.0.2", 5000, false, defaultNameText⟩

/-- Group box of node C, selected. -/
def gbC : GroupBox := ⟨2, "10.0.0.3", 5000, true, defaultNameText⟩

/-- A registry of three nodes: A selected, B unselected, C selected. -/
def wABC : MainWindow :=
  ⟨[⟨"10.0.0.1", 5000⟩, ⟨"10.0.0.2", 5000⟩, ⟨"10.0.0.3", 5000⟩], [gbA, gbBu, gbC], 3⟩

/-- Sanity check of the embedding against the spec's worked scenario: A and C
selected, B not; A's POST succeeds and C's fails — the post-state registry is
{B, C} with B unselected and C still selected.  (B is reached here only
because the iterator's skip lands on it after A's removal.) -/
theorem machineControl_abc_scenario :
    machineControl (fun a _ => a == "10.0.0.1") "reboot" wABC
      = (⟨[⟨"10.0.0.2", 5000⟩, ⟨"10.0.0.3", 5000⟩], [gbBu, gbC], 3⟩,
         [("10.0.0.1", "reboot"), ("10.0.0.3", "reboot")]) := by
  simp [machineControl, machineControlGo, wABC, gbA, gbBu, gbC,
    removeGroupBoxTotal, removeFirstNodeWithAddress, List.erase]

/-- Claim C6 (code bug): a scan over a fully-unreachable range of 254
candidates returns the empty list without error, and the worker emits the
distinguishable None payload; but the connected consumer slot addNodes
iterates the payload directly, so the None delivery raises TypeError instead
of being processed without error (and the window is never re-enabled). -/
theorem scan_empty_emits_none_slot_raises :
    scanLAN connDead ⟨none⟩ (List.range' 1 254) scanPort "192.168.1" 1 = [] ∧
    scanNodes connDead ⟨none⟩ (List.range' 1 254) "192.168.1.23" = none ∧
    addNodesSlot emptyWindow none = Except.error PyErr.typeError := by
  exact ⟨rfl, rfl, rfl⟩

/-- Claim C4: the prober never raises to its caller and collapses every
connection error to the falsy result: a successful TCP connect yields the
truthy node value, any OSError yields the falsy value none.  The embedding is
a total function because the source catches every OSError. -/
theorem checkIP_collapses_errors (conn : String → Nat → ConnOutcome)
    (st : NetState) (a : String) (p t : Nat) :
    ((checkIP conn st a p t).2 = some ⟨a, p⟩ ∨ (checkIP conn st a p t).2 = none) ∧
    ((checkIP conn st a p t).2 ≠ none ↔ conn a p = ConnOutcome.success) ∧
    ((checkIP conn st a p t).2 = none ↔ conn a p = ConnOutcome.osError) := by
  cases hc : conn a p <;> simp [checkIP, hc]

/-- Claim C9 (amended): the timeout is caller-supplied per invocation, but it
is applied by mutating process-global state — every call sets the socket
module's process-wide default timeout to its timeout argument, and the
setting persists after the call returns. -/
theorem checkIP_sets_global_timeout (conn : String → Nat → ConnOutcome)
    (st : NetState) (a : String) (p t : Nat) :
    ((checkIP conn st a p t).1).defaultTimeout = some t := by
  cases hc : conn a p <;> simp [checkIP, hc]

/-- The nodes list only grows during a merge: the result extends the old
list on the right. -/
theorem addNodesGo_nodes_append (batch : List Node) :
    ∀ w : MainWindow, ∃ l, ((addNodesGo w batch).1).nodes = w.nodes ++ l := by
  induction batch with
  | nil => intro w; exact ⟨[], by simp [addNodesGo]⟩
  | cons n rest ih =>
    intro w
    by_cases h : n ∈ w.nodes
    · simpa [addNodesGo, h] using ih w
    · obtain ⟨l, hl⟩ := ih (pushNode w n)
      refine ⟨n :: l, ?_⟩
      simp only [addNodesGo, if_neg h]
      rw [hl]
      simp [pushNode]

/-- A node already in the registry survives any merge. -/
theorem mem_nodes_addNodesGo (batch : List Node) (w : MainWindow) (n : Node)
    (hn : n ∈ w.nodes) : n ∈ ((addNodesGo w batch).1).nodes := by
  obtain ⟨l, hl⟩ := addNodesGo_nodes_append batch w
  rw [hl]
  exact List.mem_append_left _ hn

/-- Every merged node is in the registry afterwards. -/
theorem batch_mem_addNodesGo (batch : List Node) :
    ∀ (w : MainWindow) (n : Node), n ∈ batch →
      n ∈ ((addNodesGo w batch).1).nodes := by
  induction batch with
  | nil => intro w n h; cases h
  | cons m rest ih =>
    intro w n h
    by_cases hm : m ∈ w.nodes
    · rcases List.mem_cons.mp h with rfl | hr
      · simpa [addNodesGo, hm] using mem_nodes_addNodesGo rest w n hm
      · simpa [addNodesGo, hm] using ih w n hr
    · rcases List.mem_cons.mp h with rfl | hr
      · have hp : n ∈ (pushNode w n).nodes := by simp [pushNode]
        simpa [addNodesGo, hm] using mem_nodes_addNodesGo rest _ n hp
      · simpa [addNodesGo, hm] using ih (pushNode w m) n hr

/-- Merging a batch whose nodes are all present already changes nothing and
reports nothing as newly added. -/
theorem addNodesGo_all_mem (batch : List Node) :
    ∀ w : MainWindow, (∀ n ∈ batch, n ∈ w.nodes) →
      addNodesGo w batch = (w, []) := by
  induction batch with
  | nil => intro w _; rfl
  | cons m rest ih =>
    intro w h
    have hm : m ∈ w.nodes := h m (by simp)
    have hr := ih w (fun n hn => h n (by simp [hn]))
    simp [addNodesGo, hm, hr]

/-- Under a single deployment-wide port, address membership coincides with
node membership. -/
theorem addr_mem_iff_node_mem (l : List Node) (P : Nat)
    (hl : ∀ m ∈ l, m.port = P) (n : Node) (hn : n.port = P) :
    n.address ∈ l.map Node.address ↔ n ∈ l := by
  constructor
  · intro h
    obtain ⟨m, hm, he⟩ := List.mem_map.mp h
    have hp : m.port = n.port := by rw [hl m hm, hn]
    have hmn : m = n := by
      cases m; cases n
      simp only at he hp
      simp [he, hp]
    exact hmn ▸ hm
  · intro h
    exact List.mem_map.mpr ⟨n, h, rfl⟩

/-- Reported newly-added nodes are exactly the incoming nodes whose address
was absent before the merge (under the deployment-wide fixed port). -/
theorem addNodesGo_added_iff (batch : List Node) :
    ∀ (w : MainWindow) (P : Nat), (∀ m ∈ w.nodes, m.port = P) →
      (∀ m ∈ batch, m.port = P) →
      ∀ x : Node, x ∈ (addNodesGo w batch).2 ↔
        (x ∈ batch ∧ x.address ∉ w.nodes.map Node.address) := by
  induction batch with
  | nil => intro w P hw hb x; simp [addNodesGo]
  | cons n rest ih =>
    intro w P hw hb x
    have hnP : n.port = P := hb n (by simp)
    by_cases h : n ∈ w.nodes
    · have hna : n.address ∈ w.nodes.map Node.address :=
        List.mem_map.mpr ⟨n, h, rfl⟩
      rw [show (addNodesGo w (n :: rest)).2 = (addNodesGo w rest).2 by
        simp [addNodesGo, h]]
      rw [ih w P hw (fun m hm => hb m (by simp [hm])) x]
      constructor
      · rintro ⟨hx, hna2⟩
        exact ⟨by simp [hx], hna2⟩
      · rintro ⟨hx, hna2⟩
        rcases List.mem_cons.mp hx with rfl | hx2
        · exact absurd hna hna2
        · exact ⟨hx2, hna2⟩
    · have hna : n.address ∉ w.nodes.map Node.address := by
        intro hc
        exact h ((addr_mem_iff_node_mem w.nodes P hw n hnP).mp hc)
      have hw2 : ∀ m ∈ (pushNode w n).nodes, m.port = P := by
        intro m hm
        simp only [pushNode, List.mem_append, List.mem_singleton] at hm
        rcases hm with hm | rfl
        · exact hw m hm
        · exact hnP
      have hrec := ih (pushNode w n) P hw2
        (fun m hm => hb m (by simp [hm])) x
      have hgo : (addNodesGo w (n :: rest)).2
          = n :: (addNodesGo (pushNode w n) rest).2 := by
        simp [addNodesGo, h]
      have hmap : (pushNode w n).nodes.map Node.address
          = w.nodes.map Node.address ++ [n.address] := by simp [pushNode]
      rw [hgo]
      simp only [List.mem_cons]
      constructor
      · rintro (rfl | hin)
        · exact ⟨Or.inl rfl, hna⟩
        · obtain ⟨hx, hxa⟩ := hrec.mp hin
          rw [hmap] at hxa
          exact ⟨Or.inr hx, fun hc => hxa (List.mem_append_left _ hc)⟩
      · rintro ⟨hx, hxa⟩
        by_cases hxn : x = n
        · exact Or.inl hxn
        · right
          rcases hx with rfl | hx2
          · exact absurd rfl hxn
          · apply hrec.mpr
            refine ⟨hx2, ?_⟩
            rw [hmap]
            intro hc
            rcases List.mem_append.mp hc with hc | hc
            · exact hxa hc
            · simp only [List.mem_singleton] at hc
              apply hxn
              have hxP : x.port = P := hb x (by simp [hx2])
              cases x; cases n
              simp only at hc hxP hnP
              simp [hc, hxP, hnP]

/-- Merging a node whose address is already present (fixed port) changes
nothing and reports nothing. -/
theorem addNodes_present_noop (w : MainWindow) (P : Nat)
    (hw : ∀ m ∈ w.nodes, m.port = P) (n : Node) (hn : n.port = P)
    (ha : n.address ∈ w.nodes.map Node.address) :
    addNodes w [n] = (w, []) := by
  have hmem : n ∈ w.nodes := (addr_mem_iff_node_mem w.nodes P hw n hn).mp ha
  simp [addNodes, addNodesGo, hmem]

/-- Merging the same batch a second time is a no-op with an empty report. -/
theorem addNodes_remerge (w : MainWindow) (batch : List Node) :
    addNodes (addNodes w batch).1 batch = ((addNodes w batch).1, []) := by
  apply addNodesGo_all_mem
  intro n hn
  exact batch_mem_addNodesGo batch w n hn

/-- Claim C2: registry merge deduplicates on insert and is idempotent (under
the deployment-wide fixed scan port, which every node the program ever merges
carries): merging a node whose address is already present leaves the registry
unchanged and reports nothing; the newly-added report of a merge contains
exactly the incoming nodes whose address was absent before the merge; and
re-merging the same batch changes nothing and reports nothing, so a repeated
address yields one node announced only once. -/
theorem addNodes_merge_dedup (w : MainWindow) (batch : List Node) (P : Nat)
    (hw : ∀ m ∈ w.nodes, m.port = P) (hb : ∀ m ∈ batch, m.port = P) :
    (∀ n : Node, n.port = P → n.address ∈ w.nodes.map Node.address →
       addNodes w [n] = (w, [])) ∧
    (∀ x : Node, x ∈ (addNodes w batch).2 ↔
       (x ∈ batch ∧ x.address ∉ w.nodes.map Node.address)) ∧
    addNodes (addNodes w batch).1 batch = ((addNodes w batch).1, []) := by
  refine ⟨?_, ?_, addNodes_remerge w batch⟩
  · intro n hn ha
    exact addNodes_present_noop w P hw n hn ha
  · intro x
    exact addNodesGo_added_iff batch w P hw hb x

/-- Node A. -/
def nA : Node := ⟨"10.0.0.1", 5000⟩

/-- Node B. -/
def nB : Node := ⟨"10.0.0.2", 5000⟩

/-- Claim C2 witness: the dedup/idempotence theorem instantiated at the empty
registry and a batch repeating node A. -/
theorem addNodes_merge_dedup_witness :
    (∀ n : Node, n.port = 5000 →
       n.address ∈ emptyWindow.nodes.map Node.address →
       addNodes emptyWindow [n] = (emptyWindow, [])) ∧
    (∀ x : Node, x ∈ (addNodes emptyWindow [nA, nA, nB]).2 ↔
       (x ∈ [nA, nA, nB] ∧ x.address ∉ emptyWindow.nodes.map Node.address)) ∧
    addNodes (addNodes emptyWindow [nA, nA, nB]).1 [nA, nA, nB]
      = ((addNodes emptyWindow [nA, nA, nB]).1, []) :=
  addNodes_merge_dedup emptyWindow [nA, nA, nB] 5000 (by decide) (by decide)

/-- Claim C9 counterexample: a concrete probe call modifies state outside its
own connection attempt — the process-wide default socket timeout changes from
unset to 1, refuting the claim that no process-wide state is modified. -/
theorem checkIP_sets_global_timeout_cex :
    ((checkIP (fun _ _ => ConnOutcome.osError) ⟨none⟩ "10.0.0.1" 5000 1).1).defaultTimeout
      = some 1 ∧
    (checkIP (fun _ _ => ConnOutcome.osError) ⟨none⟩ "10.0.0.1" 5000 1).1 ≠ ⟨none⟩ := by
  exact ⟨rfl, by decide⟩

/-- Address-keyed node removal is a no-op when the address is absent. -/
theorem removeFirstNodeWithAddress_absent (l : List Node) (a : String)
    (h : a ∉ l.map Node.address) : removeFirstNodeWithAddress l a = l := by
  induction l with
  | nil => rfl
  | cons n rest ih =>
    simp only [List.map_cons, List.mem_cons] at h
    push_neg at h
    rw [removeFirstNodeWithAddress, if_neg (fun hc => h.1 hc.symm), ih h.2]

/-- Claim C5 counterexample: removing a group box that is not in the registry
raises ValueError instead of being a no-op — the operation is not idempotent
as claimed. -/
theorem removeGroupBox_absent_raises_cex :
    removeGroupBox emptyWindow gbA = Except.error PyErr.valueError ∧
    removeGroupBox emptyWindow gbA ≠ Except.ok emptyWindow := by
  refine ⟨by rfl, ?_⟩
  intro hc
  rw [show removeGroupBox emptyWindow gbA = Except.error PyErr.valueError from rfl] at hc
  exact Except.noConfusion hc

/-- Claim C5 (amended): removing a still-present group box succeeds, dropping
it (the list shrinks by one) together with the first node carrying its
address; the node-list half is address-keyed and is a no-op for an absent
address; but invoking the removal with a group box that is no longer in the
list raises ValueError, so removal is not idempotent at the operation level. -/
theorem removeGroupBox_behavior (w : MainWindow) (g : GroupBox) (a : String) :
    (g ∈ w.groupBoxes →
       removeGroupBox w g = Except.ok
         { w with
           groupBoxes := w.groupBoxes.erase g
           nodes := removeFirstNodeWithAddress w.nodes g.address } ∧
       (w.groupBoxes.erase g).length + 1 = w.groupBoxes.length) ∧
    (a ∉ w.nodes.map Node.address →
       removeFirstNodeWithAddress w.nodes a = w.nodes) ∧
    (g ∉ w.groupBoxes →
       removeGroupBox w g = Except.error PyErr.valueError) := by
  refine ⟨?_, ?_, ?_⟩
  · intro hmem
    refine ⟨by rw [removeGroupBox, if_pos hmem]; rfl, ?_⟩
    have h1 := List.length_erase_of_mem hmem
    have h2 := List.length_pos_of_mem hmem
    omega
  · intro ha
    exact removeFirstNodeWithAddress_absent w.nodes a ha
  · intro hmem
    rw [removeGroupBox, if_neg hmem]

/-- Claim C5 witness: the amended behaviour at concrete inputs — removal of
an absent group box errors, an absent address leaves the nodes untouched,
and removal of a present group box deletes exactly its row. -/
theorem removeGroupBox_behavior_witness :
    removeGroupBox wAB gbC = Except.error PyErr.valueError ∧
    removeFirstNodeWithAddress wAB.nodes "10.9.9.9" = wAB.nodes ∧
    removeGroupBox wAB gbA
      = Except.ok ⟨[⟨"10.0.0.2", 5000⟩], [gbB], 2⟩ := by
  refine ⟨(removeGroupBox_behavior wAB gbC "10.9.9.9").2.2 (by decide),
          (removeGroupBox_behavior wAB gbC "10.9.9.9").2.1 (by decide), ?_⟩
  have h := ((removeGroupBox_behavior wAB gbA "10.9.9.9").1 (by decide)).1
  rw [h]
  simp [wAB, gbA, gbB, removeFirstNodeWithAddress, List.erase]

/-- Clearing from a list-aligned state removes every group box and every
node, leaving only the identity counter. -/
theorem clearGo_spec (L : List GroupBox) :
    ∀ w : MainWindow, w.groupBoxes = L →
      w.nodes.map Node.address = L.map GroupBox.address →
      clearGo L w = Except.ok { w with nodes := [], groupBoxes := [] } := by
  induction L with
  | nil =>
    intro w h1 h2
    simp only [List.map_nil] at h2
    have hn : w.nodes = [] := List.map_eq_nil_iff.mp h2
    cases w
    simp only at h1 hn
    simp [clearGo, h1, hn]
  | cons g rest ih =>
    intro w h1 h2
    have hmem : g ∈ w.groupBoxes := by rw [h1]; exact List.mem_cons_self _ _
    cases hn : w.nodes with
    | nil => rw [hn] at h2; simp at h2
    | cons m ms =>
      rw [hn, List.map_cons, List.map_cons, List.cons.injEq] at h2
      obtain ⟨hma, hms⟩ := h2
      have hrem : removeGroupBox w g
          = Except.ok { w with groupBoxes := rest, nodes := ms } := by
        rw [removeGroupBox, if_pos hmem]
        rw [removeGroupBoxTotal, hn, h1]
        rw [List.erase_cons_head, removeFirstNodeWithAddress, if_pos hma]
      rw [clearGo, hrem]
      exact ih { w with groupBoxes := rest, nodes := ms } rfl hms

/-- Claim C10: the clear-list operation empties the registry completely: from
any aligned registry state — whatever the nodes' selection state and however
many merges produced them — clearing removes every group box and every node
without error. -/
theorem clearList_empties (w : MainWindow)
    (h : w.nodes.map Node.address = w.groupBoxes.map GroupBox.address) :
    clearList w = Except.ok { w with nodes := [], groupBoxes := [] } :=
  clearGo_spec w.groupBoxes w rfl h

/-- Claim C10 witness: clearing the two-node registry empties it. -/
theorem clearList_empties_witness :
    clearList wAB = Except.ok ⟨[], [], 2⟩ :=
  clearList_empties wAB (by decide)

/-- Default group box used for positional lookups in statements. -/
def gbDefault : GroupBox := ⟨0, "", 0, false, ""⟩

/-- Claim C8: one name-refresh cycle leaves the nodes list untouched and
keeps every row: the row whose query succeeds gets its name label set to the
returned value, and the row whose query fails with a network error is left
exactly as it was — the failure neither aborts the cycle nor affects other
rows, each of which is updated from its own query alone. -/
theorem checkNameCycle_per_node (query : String → Nat → Option String)
    (w : MainWindow) (i : Nat) (h : i < w.groupBoxes.length) :
    (checkNameCycle query w).nodes = w.nodes ∧
    (checkNameCycle query w).groupBoxes.length = w.groupBoxes.length ∧
    (query (w.groupBoxes.getD i gbDefault).address
        (w.groupBoxes.getD i gbDefault).port = none →
      (checkNameCycle query w).groupBoxes.getD i gbDefault
        = w.groupBoxes.getD i gbDefault) ∧
    (∀ s : String,
      query (w.groupBoxes.getD i gbDefault).address
          (w.groupBoxes.getD i gbDefault).port = some s →
      (checkNameCycle query w).groupBoxes.getD i gbDefault
        = { w.groupBoxes.getD i gbDefault with nameText := s }) := by
  have hlen : (checkNameCycle query w).groupBoxes.length = w.groupBoxes.length := by
    simp [checkNameCycle]
  have h2 : i < (checkNameCycle query w).groupBoxes.length := by rw [hlen]; exact h
  have hgd : (checkNameCycle query w).groupBoxes.getD i gbDefault
      = updateNameOnce query (w.groupBoxes.getD i gbDefault) := by
    rw [List.getD_eq_getElem _ _ h2, List.getD_eq_getElem _ _ h]
    show (w.groupBoxes.map (updateNameOnce query))[i] = _
    rw [List.getElem_map]
  refine ⟨rfl, hlen, ?_, ?_⟩
  · intro hq
    rw [hgd, updateNameOnce, hq]
  · intro s hq
    rw [hgd, updateNameOnce, hq]

/-- Name oracle of the spec's refresh scenario: node X (10.0.0.1) answers
"server-1", every other query times out. -/
def queryXY : String → Nat → Option String :=
  fun a _ => if a = "10.0.0.1" then some "server-1" else none

/-- Claim C8 witness: the per-node refresh theorem instantiated at the
two-node registry and the X/Y oracle, at row 0. -/
theorem checkNameCycle_per_node_witness :
    (checkNameCycle queryXY wAB).nodes = wAB.nodes ∧
    (checkNameCycle queryXY wAB).groupBoxes.length = wAB.groupBoxes.length ∧
    (queryXY (wAB.groupBoxes.getD 0 gbDefault).address
        (wAB.groupBoxes.getD 0 gbDefault).port = none →
      (checkNameCycle queryXY wAB).groupBoxes.getD 0 gbDefault
        = wAB.groupBoxes.getD 0 gbDefault) ∧
    (∀ s : String,
      queryXY (wAB.groupBoxes.getD 0 gbDefault).address
          (wAB.groupBoxes.getD 0 gbDefault).port = some s →
      (checkNameCycle queryXY wAB).groupBoxes.getD 0 gbDefault
        = { wAB.groupBoxes.getD 0 gbDefault with nameText := s }) :=
  checkNameCycle_per_node queryXY wAB 0 (by decide)

/-- Sanity check of the refresh cycle against the spec's scenario: X's name
becomes "server-1", Y — whose query times out — is unchanged, and the cycle
completes. -/
theorem checkNameCycle_xy_scenario :
    checkNameCycle queryXY wAB
      = ⟨wAB.nodes, [⟨0, "10.0.0.1", 5000, true, "server-1"⟩, gbB], 2⟩ := by
  simp [checkNameCycle, updateNameOnce, wAB, gbA, gbB, queryXY, defaultNameText]

/-- The result component of the prober, as used by the scanner. -/
theorem checkIP_snd (conn : String → Nat → ConnOutcome) (st : NetState)
    (a : String) (p t : Nat) :
    (checkIP conn st a p t).2
      = if conn a p = ConnOutcome.success then some ⟨a, p⟩ else none := by
  cases hc : conn a p <;> simp [checkIP, hc]

/-- Claim C7: the scanner probes exactly the 254 host addresses obtained by
appending suffixes 1..254 to the base (suffixes .0 and .255 excluded) — the
as-completed collection order ord being a permutation of the submission
range — and its result contains exactly the probed (address, port) pairs
whose probe reported reachability, with no constraint on order. -/
theorem scanLAN_probes_and_results (conn : String → Nat → ConnOutcome)
    (st : NetState) (ord : List Nat) (port : Nat) (base : String)
    (timeout : Nat) (hperm : ord.Perm (List.range' 1 254)) :
    ord.length = 254 ∧
    (∀ i : Nat, i ∈ ord ↔ (1 ≤ i ∧ i ≤ 254)) ∧
    (∀ n : Node, n ∈ scanLAN conn st ord port base timeout ↔
       ∃ i : Nat, 1 ≤ i ∧ i ≤ 254 ∧ n = ⟨hostAddr base i, port⟩ ∧
         conn (hostAddr base i) port = ConnOutcome.success) := by
  have hmr : ∀ i : Nat, i ∈ List.range' 1 254 ↔ (1 ≤ i ∧ i ≤ 254) := by
    intro i
    rw [List.mem_range'_1]
    omega
  refine ⟨by rw [hperm.length_eq, List.length_range'], ?_, ?_⟩
  · intro i
    rw [hperm.mem_iff, hmr]
  · intro n
    rw [scanLAN, List.mem_filterMap]
    constructor
    · rintro ⟨i, hi, hf⟩
      obtain ⟨h1, h2⟩ := (hmr i).mp (hperm.subset hi)
      rw [checkIP_snd] at hf
      by_cases hc : conn (hostAddr base i) port = ConnOutcome.success
      · rw [if_pos hc] at hf
        exact ⟨i, h1, h2, (Option.some.inj hf).symm, hc⟩
      · rw [if_neg hc] at hf
        exact Option.noConfusion hf
    · rintro ⟨i, h1, h2, rfl, hc⟩
      refine ⟨i, hperm.mem_iff.mpr ((hmr i).mpr ⟨h1, h2⟩), ?_⟩
      rw [checkIP_snd, if_pos hc]

/-- Connection oracle with a single reachable host, 10.0.0.7. -/
def connOne : String → Nat → ConnOutcome :=
  fun a _ => if a = "10.0.0.7" then ConnOutcome.success else ConnOutcome.osError

/-- Claim C7 witness: the scanner theorem applied at the submission order
itself and a single-reachable-host oracle puts 10.0.0.7 in the result. -/
theorem scanLAN_probes_and_results_witness :
    (⟨hostAddr "10.0.0" 7, 5000⟩ : Node)
      ∈ scanLAN connOne ⟨none⟩ (List.range' 1 254) 5000 "10.0.0" 1 :=
  ((scanLAN_probes_and_results connOne ⟨none⟩ (List.range' 1 254) 5000 "10.0.0" 1
      (List.Perm.refl _)).2.2 _).mpr ⟨7, by decide, by decide, rfl, by decide⟩

/-- Address-keyed removal of the first matching node projects to erasing the
address from the address list. -/
theorem removeFirstNodeWithAddress_map (l : List Node) (a : String) :
    (removeFirstNodeWithAddress l a).map Node.address
      = (l.map Node.address).erase a := by
  induction l with
  | nil => rfl
  | cons n rest ih =>
    by_cases h : n.address = a
    · rw [removeFirstNodeWithAddress, if_pos h, List.map_cons, h,
        List.erase_cons_head]
    · rw [removeFirstNodeWithAddress, if_neg h, List.map_cons, List.map_cons,
        List.erase_cons_tail (not_beq_of_ne h), ih]

/-- Survivors of an address-keyed removal were already in the list. -/
theorem mem_of_mem_removeFirstNodeWithAddress (l : List Node) (a : String)
    (m : Node) (h : m ∈ removeFirstNodeWithAddress l a) : m ∈ l := by
  induction l with
  | nil => exact absurd h (List.not_mem_nil m)
  | cons n rest ih =>
    by_cases hc : n.address = a
    · rw [removeFirstNodeWithAddress, if_pos hc] at h
      exact List.mem_cons_of_mem n h
    · rw [removeFirstNodeWithAddress, if_neg hc] at h
      rcases List.mem_cons.mp h with rfl | h2
      · exact List.mem_cons_self _ _
      · exact List.mem_cons_of_mem n (ih h2)

/-- Erasing the first group box found for an address projects to erasing the
address from the address list. -/
theorem erase_find_map (a : String) (l : List GroupBox) :
    ∀ g : GroupBox, l.find? (fun x => x.address == a) = some g →
      (l.erase g).map GroupBox.address = (l.map GroupBox.address).erase a := by
  induction l with
  | nil => intro g hg; exact absurd hg (by simp)
  | cons x xs ih =>
    intro g hg
    by_cases h : x.address = a
    · have hgx : g = x := by
        rw [List.find?_cons_of_pos xs (by simpa using h)] at hg
        exact (Option.some.inj hg).symm
      subst hgx
      rw [List.erase_cons_head, List.map_cons, h, List.erase_cons_head]
    · have htail : xs.find? (fun y => y.address == a) = some g := by
        rw [List.find?_cons_of_neg xs (by simpa using h)] at hg
        exact hg
      have hgx : x ≠ g := by
        intro he
        have hga := List.find?_some htail
        rw [← he] at hga
        simp only [beq_iff_eq] at hga
        exact h hga
      rw [List.erase_cons_tail (not_beq_of_ne hgx), List.map_cons,
        List.map_cons, List.erase_cons_tail (not_beq_of_ne h), ih g htail]

/-- A merge preserves the group-box/node address alignment and the port
invariant, and its effect on the address list is the insertion fold. -/
theorem addNodesGo_sync (batch : List Node) :
    ∀ (w : MainWindow) (P : Nat),
      w.groupBoxes.map GroupBox.address = w.nodes.map Node.address →
      (∀ m ∈ w.nodes, m.port = P) →
      (∀ m ∈ batch, m.port = P) →
      ((addNodesGo w batch).1).nodes.map Node.address
          = batch.foldl insAddr (w.nodes.map Node.address) ∧
      ((addNodesGo w batch).1).groupBoxes.map GroupBox.address
          = ((addNodesGo w batch).1).nodes.map Node.address ∧
      (∀ m ∈ ((addNodesGo w batch).1).nodes, m.port = P) := by
  induction batch with
  | nil => intro w P hs hw _; exact ⟨rfl, hs, hw⟩
  | cons n rest ih =>
    intro w P hs hw hb
    have hnP : n.port = P := hb n (by simp)
    by_cases h : n ∈ w.nodes
    · have hna : n.address ∈ w.nodes.map Node.address :=
        List.mem_map.mpr ⟨n, h, rfl⟩
      have hfold : (n :: rest).foldl insAddr (w.nodes.map Node.address)
          = rest.foldl insAddr (w.nodes.map Node.address) := by
        rw [List.foldl_cons, insAddr, if_pos hna]
      rw [hfold]
      have hrest := ih w P hs hw (fun m hm => hb m (by simp [hm]))
      simpa [addNodesGo, h] using hrest
    · have hna : n.address ∉ w.nodes.map Node.address := fun hc =>
        h ((addr_mem_iff_node_mem w.nodes P hw n hnP).mp hc)
      have hs2 : (pushNode w n).groupBoxes.map GroupBox.address
          = (pushNode w n).nodes.map Node.address := by
        simp [pushNode, makeGroupBox, hs]
      have hw2 : ∀ m ∈ (pushNode w n).nodes, m.port = P := by
        intro m hm
        simp only [pushNode, List.mem_append, List.mem_singleton] at hm
        rcases hm with hm | rfl
        · exact hw m hm
        · exact hnP
      have hfold : (n :: rest).foldl insAddr (w.nodes.map Node.address)
          = rest.foldl insAddr (w.nodes.map Node.address ++ [n.address]) := by
        rw [List.foldl_cons, insAddr, if_neg hna]
      have hpush : (pushNode w n).nodes.map Node.address
          = w.nodes.map Node.address ++ [n.address] := by simp [pushNode]
      have hrest := ih (pushNode w n) P hs2 hw2 (fun m hm => hb m (by simp [hm]))
      rw [hfold, ← hpush]
      simpa [addNodesGo, h] using hrest

/-- The removal step preserves alignment and ports, and acts on the address
list as erasure of the removed address. -/
theorem applyOp_removeAddr (w : MainWindow) (P : Nat) (a : String)
    (hs : w.groupBoxes.map GroupBox.address = w.nodes.map Node.address)
    (hw : ∀ m ∈ w.nodes, m.port = P) :
    (applyOp w (RegOp.removeAddr a)).nodes.map Node.address
        = (w.nodes.map Node.address).erase a ∧
    (applyOp w (RegOp.removeAddr a)).groupBoxes.map GroupBox.address
        = (applyOp w (RegOp.removeAddr a)).nodes.map Node.address ∧
    (∀ m ∈ (applyOp w (RegOp.removeAddr a)).nodes, m.port = P) := by
  cases hf : w.groupBoxes.find? (fun g => g.address == a) with
  | none =>
    have hna : a ∉ w.nodes.map Node.address := by
      rw [← hs]
      intro hc
      obtain ⟨g, hg, he⟩ := List.mem_map.mp hc
      have h2 := List.find?_eq_none.mp hf g hg
      simp [he] at h2
    simp only [applyOp, hf]
    exact ⟨(List.erase_of_not_mem hna).symm, hs, hw⟩
  | some g =>
    have hga : g.address = a := by simpa using List.find?_some hf
    simp only [applyOp, hf, removeGroupBoxTotal]
    refine ⟨?_, ?_, ?_⟩
    · rw [removeFirstNodeWithAddress_map, hga]
    · rw [erase_find_map a w.groupBoxes g hf, hs,
        removeFirstNodeWithAddress_map, hga]
    · intro m hm
      exact hw m (mem_of_mem_removeFirstNodeWithAddress w.nodes g.address m hm)

/-- Over any history of merges and removals (fixed deployment port), the
registry's address sequence equals the most-recent-insertion order fold, the
group-box list stays aligned with it, and ports stay fixed. -/
theorem applyOps_order (ops : List RegOp) :
    ∀ (w : MainWindow) (P : Nat),
      w.groupBoxes.map GroupBox.address = w.nodes.map Node.address →
      (∀ m ∈ w.nodes, m.port = P) →
      (∀ op ∈ ops, op.portsAre P = true) →
      (applyOps w ops).nodes.map Node.address
        = ops.foldl latestAddedStep (w.nodes.map Node.address) ∧
      (applyOps w ops).groupBoxes.map GroupBox.address
        = (applyOps w ops).nodes.map Node.address ∧
      (∀ m ∈ (applyOps w ops).nodes, m.port = P) := by
  induction ops with
  | nil => intro w P hs hw _; exact ⟨rfl, hs, hw⟩
  | cons op rest ih =>
    intro w P hs hw hops
    have hrestops : ∀ o ∈ rest, o.portsAre P = true :=
      fun o ho => hops o (List.mem_cons_of_mem _ ho)
    cases op with
    | merge batch =>
      have hall : batch.all (fun n => n.port == P) = true :=
        hops (RegOp.merge batch) (List.mem_cons_self _ _)
      have hb : ∀ m ∈ batch, m.port = P := by
        intro m hm
        simpa using List.all_eq_true.mp hall m hm
      obtain ⟨h1, h2, h3⟩ := addNodesGo_sync batch w P hs hw hb
      obtain ⟨r1, r2, r3⟩ := ih ((addNodesGo w batch).1) P h2 h3 hrestops
      refine ⟨?_, r2, r3⟩
      rw [show applyOps w (RegOp.merge batch :: rest)
          = applyOps ((addNodesGo w batch).1) rest from rfl]
      rw [r1, h1]
      rfl
    | removeAddr a =>
      obtain ⟨h1, h2, h3⟩ := applyOp_removeAddr w P a hs hw
      obtain ⟨r1, r2, r3⟩ := ih (applyOp w (RegOp.removeAddr a)) P h2 h3 hrestops
      refine ⟨?_, r2, r3⟩
      rw [show applyOps w (RegOp.removeAddr a :: rest)
          = applyOps (applyOp w (RegOp.removeAddr a)) rest from rfl]
      rw [r1, h1]
      rfl

/-- History refuting the first-added ordering: add A, add B, remove A,
re-merge A. -/
def opsCex : List RegOp :=
  [RegOp.merge [nA], RegOp.merge [nB], RegOp.removeAddr "10.0.0.1",
   RegOp.merge [nA]]

/-- Claim C3 counterexample: after merging A then B, removing A and merging A
again, the code's snapshot lists B before A, while the claimed
first-added-across-history order lists A before B — re-insertion happens at
the end, so the claim fails on this sequence of merge and remove
operations. -/
theorem registry_order_first_added_cex :
    (applyOps emptyWindow opsCex).nodes.map Node.address
      = ["10.0.0.2", "10.0.0.1"] ∧
    specFirstAddedOrder opsCex = ["10.0.0.1", "10.0.0.2"] ∧
    (applyOps emptyWindow opsCex).nodes.map Node.address
      ≠ specFirstAddedOrder opsCex := by
  exact ⟨by decide, by decide, by decide⟩

/-- Claim C3 (amended): across every history of merge and remove operations
(with the deployment-wide fixed port), the snapshot lists the surviving
nodes in the order of their most recent insertion — a node removed and later
merged again re-enters at the end; for histories that never re-merge a
removed node this coincides with first-added order, as in the spec's
three-address example. -/
theorem registry_order_latest_insertion (ops : List RegOp) (P : Nat)
    (hops : ∀ op ∈ ops, op.portsAre P = true) :
    (applyOps emptyWindow ops).nodes.map Node.address = specLatestOrder ops :=
  (applyOps_order ops emptyWindow P rfl (by intro m hm; cases hm) hops).1

/-- The spec's insertion-order example history: one merge of three
addresses. -/
def ops3 : List RegOp :=
  [RegOp.merge [⟨"10.0.0.5", 5000⟩, ⟨"10.0.0.2", 5000⟩, ⟨"10.0.0.9", 5000⟩]]

/-- Claim C3 witness: the amended order theorem instantiated at the spec's
example — merging [10.0.0.5, 10.0.0.2, 10.0.0.9] yields exactly that
snapshot order. -/
theorem registry_order_latest_insertion_witness :
    (applyOps emptyWindow ops3).nodes.map Node.address
      = ["10.0.0.5", "10.0.0.2", "10.0.0.9"] :=
  (registry_order_latest_insertion ops3 5000 (by decide)).trans (by decide)

end NodeManager
